import Mathlib

/-!
Shallow embedding of the weighbridge logging page
(src/webapp/src/app/page.tsx).  Pure helper functions of the source are
translated directly; the component's four useState cells become the
fields of AppState, each event handler becomes a state transformer, and
the nondeterministic environment inputs (Math.random-based id generation
and the ambient current date) are passed in as explicit parameters.
Strings are treated at the character-list level over the ASCII fragment:
the JavaScript string primitives trim, toLowerCase, toUpperCase and the
global comma replace are modelled by the character-wise functions below,
and the Number() coercion is modelled on the fragment of optionally
signed decimal-integer strings.
-/

/-- Characters treated as whitespace by the model of the JavaScript trim
call (ASCII fragment). -/
def isJsSpace (c : Char) : Bool :=
  c == ' ' || c == '\t' || c == '\n' || c == '\r' || c == '\x0b' || c == '\x0c'

/-- Model of the JavaScript trim call: drops leading and trailing
whitespace characters. -/
def jsTrim (s : String) : String :=
  ⟨((s.data.dropWhile isJsSpace).reverse.dropWhile isJsSpace).reverse⟩

/-- Character-wise lowercasing of a character list. -/
def lowerList (cs : List Char) : List Char := cs.map Char.toLower

/-- Model of the JavaScript toLowerCase call (ASCII fragment). -/
def jsToLower (s : String) : String := ⟨lowerList s.data⟩

/-- Model of the JavaScript toUpperCase call (ASCII fragment). -/
def jsToUpper (s : String) : String := ⟨s.data.map Char.toUpper⟩

/-- Model of value.replace with the global comma pattern: removes every
comma of the string. -/
def stripCommas (s : String) : String := ⟨s.data.filter (fun c => c != ',')⟩

/-- Digit-run parser: succeeds when the characters are a nonempty run of
decimal digits, returning their value. -/
def parseDigits (cs : List Char) : Option Nat :=
  if cs ≠ [] ∧ cs.all Char.isDigit then
    some (cs.foldl (fun acc c => acc * 10 + (c.toNat - 48)) 0)
  else none

/-- Model of the JavaScript Number() coercion on the fragment of
optionally signed decimal-integer strings: surrounding whitespace is
ignored, the empty (or all-whitespace) string converts to 0, and any
other string that is not an optionally signed digit run fails (NaN).
Number syntaxes outside the fragment (decimal points, exponents, hex,
Infinity) are not modelled. -/
def jsParseNum (s : String) : Option Int :=
  match (jsTrim s).data with
  | [] => some 0
  | '-' :: rest => (parseDigits rest).map (fun n => -(n : Int))
  | '+' :: rest => (parseDigits rest).map (fun n => (n : Int))
  | cs => (parseDigits cs).map (fun n => (n : Int))

/-- Model of the expression Number(s) or-else 0: a failed parse (NaN) is
replaced by 0. -/
def jsNumberOrZero (s : String) : Int := (jsParseNum s).getD 0

/-- computeNetWeight from page.tsx: strips commas from both weight
texts, coerces each with Number() or-else 0, and floors the difference
at zero. -/
def computeNetWeight (loaded unloaded : String) : Int :=
  let loadedValue := jsNumberOrZero (stripCommas loaded)
  let emptyValue := jsNumberOrZero (stripCommas unloaded)
  let diff := loadedValue - emptyValue
  if diff > 0 then diff else 0

/-- Entry record (one persisted weighbridge row) from page.tsx. -/
structure Entry where
  id : String
  plateNumber : String
  yukBilan : Int
  yuksiz : Int
  sofVazin : Int
  date : String
  price : String
  checkNumber : String
deriving DecidableEq

/-- An Entry minus its id: the element type of the seed list. -/
structure SeedEntry where
  plateNumber : String
  yukBilan : Int
  yuksiz : Int
  sofVazin : Int
  date : String
  price : String
  checkNumber : String
deriving DecidableEq

/-- priceOptions from page.tsx. -/
def priceOptions : List String := ["30,000", "40,000"]

/-- seedEntries from page.tsx. -/
def seedEntries : List SeedEntry :=
  [{ plateNumber := "90A111AA", yukBilan := 48000, yuksiz := 12500,
     sofVazin := 35500, date := "2024-11-18", price := "30,000",
     checkNumber := "CHK-2024-9081" },
   { plateNumber := "30B555BB", yukBilan := 52500, yuksiz := 14000,
     sofVazin := 38500, date := "2024-11-19", price := "40,000",
     checkNumber := "CHK-2024-9124" }]

/-- Attach a generated id to a seed record (the spread with a fresh id
in page.tsx). -/
def SeedEntry.withId (se : SeedEntry) (i : String) : Entry :=
  { id := i, plateNumber := se.plateNumber, yukBilan := se.yukBilan,
    yuksiz := se.yuksiz, sofVazin := se.sofVazin, date := se.date,
    price := se.price, checkNumber := se.checkNumber }

/-- Forget an Entry's id, recovering its seed-shaped field record. -/
def Entry.toSeed (e : Entry) : SeedEntry :=
  { plateNumber := e.plateNumber, yukBilan := e.yukBilan,
    yuksiz := e.yuksiz, sofVazin := e.sofVazin, date := e.date,
    price := e.price, checkNumber := e.checkNumber }

/-- seedEntries.map with one generateId() output per element; the
generator outputs are supplied as the list ids. -/
def instantiateSeeds (ids : List String) : List Entry :=
  List.zipWith SeedEntry.withId seedEntries ids

/-- Transient form state (the FormState type of page.tsx): weights are
raw texts pending parse. -/
structure FormState where
  plateNumber : String
  yukBilan : String
  yuksiz : String
  date : String
  summa : String
  checkNumber : String
deriving DecidableEq

/-- makeInitialFormState from page.tsx; the ambient current date is the
parameter today. -/
def makeInitialFormState (today : String) : FormState :=
  { plateNumber := "", yukBilan := "", yuksiz := "", date := today,
    summa := priceOptions.headD "", checkNumber := "" }

/-- The component's four useState cells. -/
structure AppState where
  entries : List Entry
  form : FormState
  editingId : Option String
  searchTerm : String
deriving DecidableEq

/-- The per-entry search haystack built inside filteredEntries: the
seven field texts joined with a space. -/
def haystack (e : Entry) : String :=
  String.intercalate " "
    [e.plateNumber, toString e.yukBilan, toString e.yuksiz,
     toString e.sofVazin, e.date, e.price, e.checkNumber]

/-- Executable prefix test on character lists. -/
def prefixB : List Char → List Char → Bool
  | [], _ => true
  | _ :: _, [] => false
  | a :: n, b :: h => a == b && prefixB n h

/-- Executable substring test (the model of the JavaScript includes
call): does n occur contiguously in h? -/
def containsSeq : List Char → List Char → Bool
  | [], n => n.isEmpty
  | c :: h, n => prefixB n (c :: h) || containsSeq h n

/-- Occurrence as a proposition: n occurs contiguously inside h. -/
def occursIn (n h : List Char) : Prop := ∃ pre post, h = pre ++ n ++ post

/-- filteredEntries from page.tsx: searchTermLower is the trimmed,
lowercased search term; when it is empty the whole store is returned,
otherwise exactly the entries whose lowercased haystack contains it
survive, in store order. -/
def filteredEntries (entries : List Entry) (searchTerm : String) : List Entry :=
  let searchTermLower := jsToLower (jsTrim searchTerm)
  if searchTermLower = "" then entries
  else
    entries.filter
      (fun e => containsSeq (jsToLower (haystack e)).data searchTermLower.data)

/-- Prepend a character onto the first segment of a split result (the
current non-separator run keeps growing). -/
def consHead (c : Char) : List (List Char) → List (List Char)
  | [] => [[c]]
  | seg :: segs => (c :: seg) :: segs

/-- Model of value.split(regex) inside highlightMatch, where regex is
the case-insensitively matched, regex-escaped (hence literal) search
term wrapped in a capture group: the result alternates non-matching runs
with the matched slices (original casing preserved), scanning left to
right for leftmost non-overlapping case-insensitive occurrences. -/
def splitCI (t : List Char) : List Char → List (List Char)
  | [] => [[]]
  | c :: rest =>
    if h : t ≠ [] ∧ lowerList ((c :: rest).take t.length) = lowerList t then
      [] :: (c :: rest).take t.length :: splitCI t ((c :: rest).drop t.length)
    else
      consHead c (splitCI t rest)
termination_by s => s.length
decreasing_by
  · have ht : 0 < t.length := List.length_pos.mpr h.1
    simp only [List.length_drop, List.length_cons]
    omega
  · simp

/-- highlightMatch from page.tsx, as data: the list of rendered segments
paired with their isMatch flag (segment lowercased equals the already
lowercased search term).  With an empty search term the whole text is
returned as a single unmarked piece. -/
def highlightMatch (searchTermLower : String) (value : String) :
    List (String × Bool) :=
  if searchTermLower = "" then [(value, false)]
  else
    (splitCI searchTermLower.data value.data).map
      (fun seg => (⟨seg⟩, lowerList seg == searchTermLower.data))

/-- The six editable form fields fed to handleInputChange. -/
inductive FormField
  | plateNumber
  | yukBilan
  | yuksiz
  | date
  | summa
  | checkNumber
deriving DecidableEq

/-- Functional update of one form field. -/
def updateField (f : FormField) (v : String) (fs : FormState) : FormState :=
  match f with
  | .plateNumber => { fs with plateNumber := v }
  | .yukBilan => { fs with yukBilan := v }
  | .yuksiz => { fs with yuksiz := v }
  | .date => { fs with date := v }
  | .summa => { fs with summa := v }
  | .checkNumber => { fs with checkNumber := v }

/-- handleInputChange from page.tsx: setForm with one field replaced. -/
def handleInputChange (f : FormField) (v : String) (s : AppState) : AppState :=
  { s with form := updateField f v s.form }

/-- The search input's onChange: setSearchTerm. -/
def setSearchTerm (q : String) (s : AppState) : AppState :=
  { s with searchTerm := q }

/-- resetForm from page.tsx: fresh initial form, editingId cleared. -/
def resetFormOn (today : String) (s : AppState) : AppState :=
  { s with form := makeInitialFormState today, editingId := none }

/-- The Entry literal built inside handleSubmit.  idA models the
generateId() call supplying a new record id, idB the one supplying a
generated check number. -/
def submittedEntry (idA idB : String) (editingId : Option String)
    (form : FormState) : Entry :=
  { id := editingId.getD idA,
    plateNumber := jsTrim form.plateNumber,
    yukBilan := jsNumberOrZero form.yukBilan,
    yuksiz := jsNumberOrZero form.yuksiz,
    sofVazin := computeNetWeight form.yukBilan form.yuksiz,
    date := form.date,
    price := form.summa,
    checkNumber :=
      if jsTrim form.checkNumber = "" then "CHK-" ++ jsToUpper idB
      else jsTrim form.checkNumber }

/-- handleSubmit from page.tsx: silently returns on a blank plate
number; otherwise commits the submitted entry (prepend when creating,
in-place map when editing) and resets the form. -/
def handleSubmit (idA idB today : String) (s : AppState) : AppState :=
  if jsTrim s.form.plateNumber = "" then s
  else
    let newEntry := submittedEntry idA idB s.editingId s.form
    let entries2 :=
      match s.editingId with
      | some eid => s.entries.map (fun e => if e.id = eid then newEntry else e)
      | none => newEntry :: s.entries
    { s with entries := entries2, form := makeInitialFormState today,
             editingId := none }

/-- handleEdit from page.tsx: populate the form from the first entry
carrying the id and mark it as being edited; no-op when the id is
absent. -/
def handleEdit (i : String) (s : AppState) : AppState :=
  match s.entries.find? (fun e => e.id == i) with
  | none => s
  | some entry =>
    { s with
      form := { plateNumber := entry.plateNumber,
                yukBilan := toString entry.yukBilan,
                yuksiz := toString entry.yuksiz,
                date := entry.date,
                summa := entry.price,
                checkNumber := entry.checkNumber },
      editingId := some i }

/-- handleDelete from page.tsx: filter the entry out; when it was the
one being edited, additionally reset the form. -/
def handleDelete (i today : String) (s : AppState) : AppState :=
  let s2 := { s with entries := s.entries.filter (fun e => e.id != i) }
  if s.editingId = some i then resetFormOn today s2 else s2

/-- handleRelay from page.tsx: replace the store with freshly
instantiated seeds, clear the search term and reset the form. -/
def handleRelay (ids : List String) (today : String) (s : AppState) : AppState :=
  { entries := instantiateSeeds ids,
    form := makeInitialFormState today,
    editingId := none,
    searchTerm := "" }

/-- The component's state at first render: seeds instantiated with
generated ids, fresh form, no editing, empty search. -/
def initialState (ids : List String) (today : String) : AppState :=
  { entries := instantiateSeeds ids,
    form := makeInitialFormState today,
    editingId := none,
    searchTerm := "" }

/-- States reachable from page load by any sequence of user events; the
generated ids and the ambient date are universally quantified oracle
inputs. -/
inductive Reachable : AppState → Prop
  | init (ids : List String) (today : String) :
      Reachable (initialState ids today)
  | input (f : FormField) (v : String) (s : AppState) :
      Reachable s → Reachable (handleInputChange f v s)
  | search (q : String) (s : AppState) :
      Reachable s → Reachable (setSearchTerm q s)
  | submit (idA idB today : String) (s : AppState) :
      Reachable s → Reachable (handleSubmit idA idB today s)
  | edit (i : String) (s : AppState) :
      Reachable s → Reachable (handleEdit i s)
  | delete (i today : String) (s : AppState) :
      Reachable s → Reachable (handleDelete i today s)
  | clear (today : String) (s : AppState) :
      Reachable s → Reachable (resetFormOn today s)
  | relay (ids : List String) (today : String) (s : AppState) :
      Reachable s → Reachable (handleRelay ids today s)

/-! ### Basic helper lemmas -/

/-- A string with an empty character list is the empty string. -/
theorem string_eq_empty_of_data (s : String) (h : s.data = []) : s = "" := by
  cases s with
  | mk d =>
    simp only [String.data] at h
    subst h
    rfl

/-- A lowercased string is empty exactly when the original is. -/
theorem jsToLower_eq_empty_iff (s : String) : jsToLower s = "" ↔ s = "" := by
  constructor
  · intro h
    have hd : (jsToLower s).data = [] := by rw [h]
    have hs : s.data = [] := by
      simpa [jsToLower, lowerList] using hd
    exact string_eq_empty_of_data s hs
  · intro h
    subst h
    rfl

/-- A string differs from the empty string exactly when its character
list is nonempty. -/
theorem string_ne_empty_iff_data (s : String) : s ≠ "" ↔ s.data ≠ [] := by
  constructor
  · intro h hd
    exact h (string_eq_empty_of_data s hd)
  · intro h hs
    subst hs
    simp at h

/-- Correctness of the executable prefix test. -/
theorem prefixB_iff (n h : List Char) : prefixB n h = true ↔ ∃ u, h = n ++ u := by
  induction n generalizing h with
  | nil => simp [prefixB]
  | cons a n ih =>
    cases h with
    | nil => simp [prefixB]
    | cons b h2 =>
      simp only [prefixB, Bool.and_eq_true, beq_iff_eq, ih]
      constructor
      · rintro ⟨rfl, u, rfl⟩
        exact ⟨u, rfl⟩
      · rintro ⟨u, hu⟩
        rw [List.cons_append] at hu
        injection hu with h1 h2'
        exact ⟨h1.symm, u, h2'⟩

/-- Nothing but the empty pattern occurs in the empty list. -/
theorem occursIn_nil_iff (n : List Char) : occursIn n [] ↔ n = [] := by
  constructor
  · rintro ⟨pre, post, h⟩
    rcases List.append_eq_nil.mp (List.append_eq_nil.mp h.symm).1 with ⟨-, h2⟩
    exact h2
  · rintro rfl
    exact ⟨[], [], rfl⟩

/-- Occurrence in a cons: either the pattern is a prefix or it occurs in
the tail. -/
theorem occursIn_cons_iff (n : List Char) (a : Char) (l : List Char) :
    occursIn n (a :: l) ↔ (∃ u, a :: l = n ++ u) ∨ occursIn n l := by
  constructor
  · rintro ⟨pre, post, h⟩
    cases pre with
    | nil => exact Or.inl ⟨post, by simpa using h⟩
    | cons x pre2 =>
      right
      rw [List.cons_append, List.cons_append] at h
      injection h with h1 h2
      exact ⟨pre2, post, h2⟩
  · rintro (⟨u, hu⟩ | ⟨pre, post, h⟩)
    · exact ⟨[], u, by simpa using hu⟩
    · exact ⟨a :: pre, post, by simp [h]⟩

/-- Correctness of the executable substring test. -/
theorem containsSeq_iff (h n : List Char) :
    containsSeq h n = true ↔ occursIn n h := by
  induction h with
  | nil =>
    simp [containsSeq, occursIn_nil_iff, List.isEmpty_iff]
  | cons c h2 ih =>
    simp [containsSeq, Bool.or_eq_true, prefixB_iff, ih, occursIn_cons_iff]

/-! ### Concrete states used by witnesses and counterexamples -/

/-- A form whose plate number is whitespace only. -/
def blankPlateForm : FormState :=
  { plateNumber := "   ", yukBilan := "100", yuksiz := "20",
    date := "2024-11-20", summa := "30,000", checkNumber := "c" }

/-- A state about to be rejected by submit. -/
def blankPlateState : AppState :=
  { entries := instantiateSeeds ["a", "b"], form := blankPlateForm,
    editingId := none, searchTerm := "q" }

/-- A form whose loaded-weight text carries a comma. -/
def commaForm : FormState :=
  { plateNumber := "A", yukBilan := "1,000", yuksiz := "0",
    date := "2024-11-20", summa := "30,000", checkNumber := "C1" }

/-- A state about to commit the comma-bearing form. -/
def commaState : AppState :=
  { entries := [], form := commaForm, editingId := none, searchTerm := "" }

/-- The entry the code stores for commaState. -/
def commaEntry : Entry :=
  { id := "i1", plateNumber := "A", yukBilan := 0, yuksiz := 0,
    sofVazin := 1000, date := "2024-11-20", price := "30,000",
    checkNumber := "C1" }

/-- A form with a whitespace-padded check number. -/
def paddedCheckForm : FormState :=
  { plateNumber := "A", yukBilan := "10", yuksiz := "2",
    date := "2024-11-20", summa := "30,000", checkNumber := " X " }

/-- A state about to commit the padded check number. -/
def paddedCheckState : AppState :=
  { entries := [], form := paddedCheckForm, editingId := none,
    searchTerm := "" }

/-- A form with a blank check number and an unparsable loaded weight. -/
def blankCheckForm : FormState :=
  { plateNumber := "01A001AA", yukBilan := "abc", yuksiz := "3000",
    date := "2024-11-20", summa := "30,000", checkNumber := "  " }

/-- A state about to commit blankCheckForm. -/
def blankCheckState : AppState :=
  { entries := [], form := blankCheckForm, editingId := none,
    searchTerm := "" }

/-! ### C2: blank plate number means no state change -/

/-- C2: whenever the form's plate number trims to the empty string,
submit returns the state unchanged: no entry is added, replaced or
removed, the form fields, the editingId flag and the search term all
stay exactly as they were. -/
theorem c2_blank_plate_rejected (s : AppState) (idA idB today : String)
    (hp : jsTrim s.form.plateNumber = "") :
    handleSubmit idA idB today s = s := by
  rw [handleSubmit, if_pos hp]

/-- Witness for C2 at a concrete whitespace-only plate number. -/
theorem c2_blank_plate_rejected_witness :
    handleSubmit "i1" "i2" "2024-11-20" blankPlateState = blankPlateState :=
  c2_blank_plate_rejected blankPlateState "i1" "i2" "2024-11-20" (by decide)

/-! ### C1: the stored net weight versus the stored gross and empty
weights -/

/-- C1, code evaluation at the failing input: submitting the form whose
loaded-weight text is the comma-bearing "1,000" stores an entry with
yukBilan 0 and yuksiz 0 (handleSubmit parses the raw texts without
stripping commas, so Number gives NaN, coerced to 0) yet sofVazin 1000
(computeNetWeight strips commas before parsing), so the stored sofVazin
differs from max of the stored difference and zero. -/
theorem c1_code_eval :
    (handleSubmit "i1" "i2" "2024-11-20" commaState).entries = [commaEntry]
    ∧ commaEntry.sofVazin ≠ max (commaEntry.yukBilan - commaEntry.yuksiz) 0 := by
  constructor
  · decide
  · decide

/-! ### C8: unparsable weight texts coerce to zero and do not block the
commit -/

/-- C8: at any commit whose plate number is non-blank, a loaded-weight
or empty-weight text on which the Number coercion fails is stored as 0
in the committed entry, and (create case) the submission is still
committed: the entry is prepended, not rejected. -/
theorem c8_unparsable_weights_coerce (s : AppState) (idA idB today : String)
    (hp : jsTrim s.form.plateNumber ≠ "") :
    (jsParseNum s.form.yukBilan = none →
      (submittedEntry idA idB s.editingId s.form).yukBilan = 0)
    ∧ (jsParseNum s.form.yuksiz = none →
      (submittedEntry idA idB s.editingId s.form).yuksiz = 0)
    ∧ (s.editingId = none →
      (handleSubmit idA idB today s).entries
        = submittedEntry idA idB none s.form :: s.entries) := by
  refine ⟨fun h1 => ?_, fun h2 => ?_, fun hn => ?_⟩
  · simp [submittedEntry, jsNumberOrZero, h1]
  · simp [submittedEntry, jsNumberOrZero, h2]
  · rw [handleSubmit, if_neg hp, hn]

/-- Witness for C8: the unparsable loaded-weight text "abc" of
blankCheckForm is stored as 0. -/
theorem c8_unparsable_weights_coerce_witness :
    (submittedEntry "i1" "i2" blankCheckState.editingId
      blankCheckState.form).yukBilan = 0 :=
  (c8_unparsable_weights_coerce blankCheckState "i1" "i2" "2024-11-20"
    (by decide)).1 (by decide)

/-! ### C9: check number generation versus the user-supplied text -/

/-- C9, counterexample to the claim as stated: the user supplies the
check number " X " (non-blank), but the committed entry stores the
trimmed text "X", not the supplied text. -/
theorem c9_counterexample :
    (handleSubmit "i1" "i2" "2024-11-20" paddedCheckState).entries.map
        Entry.checkNumber = ["X"]
    ∧ paddedCheckState.form.checkNumber = " X "
    ∧ ("X" : String) ≠ " X " := by
  refine ⟨?_, ?_, ?_⟩ <;> decide

/-- C9 as amended: at any commit with a non-blank plate number, a blank
(empty or whitespace-only) check number is replaced by the non-empty
generated token built from "CHK-" and the uppercased generated id, and a
non-blank check number is kept in its trimmed form; in the create case
the entry carrying that check number is committed. -/
theorem c9_check_number (s : AppState) (idA idB today : String)
    (hp : jsTrim s.form.plateNumber ≠ "") :
    (jsTrim s.form.checkNumber = "" →
      (submittedEntry idA idB s.editingId s.form).checkNumber
          = "CHK-" ++ jsToUpper idB
      ∧ (submittedEntry idA idB s.editingId s.form).checkNumber ≠ "")
    ∧ (jsTrim s.form.checkNumber ≠ "" →
      (submittedEntry idA idB s.editingId s.form).checkNumber
          = jsTrim s.form.checkNumber)
    ∧ (s.editingId = none →
      (handleSubmit idA idB today s).entries
        = submittedEntry idA idB none s.form :: s.entries) := by
  refine ⟨fun hb => ⟨?_, ?_⟩, fun hb => ?_, fun hn => ?_⟩
  · simp [submittedEntry, hb]
  · simp only [submittedEntry, hb, if_pos]
    intro hcontra
    have hd : ("CHK-" ++ jsToUpper idB).data = [] := by rw [hcontra]
    simp [String.data_append] at hd
  · simp [submittedEntry, hb]
  · rw [handleSubmit, if_neg hp, hn]

/-- Witness for C9: the blank check number of blankCheckState is
replaced by the generated token. -/
theorem c9_check_number_witness :
    (submittedEntry "i1" "i2" blankCheckState.editingId
      blankCheckState.form).checkNumber = "CHK-" ++ jsToUpper "i2" :=
  ((c9_check_number blankCheckState "i1" "i2" "2024-11-20"
    (by decide)).1 (by decide)).1

/-! ### C6: delete semantics -/

/-- C6: delete removes exactly the entries carrying the id (all other
entries survive unchanged and in order), is a store no-op when the id is
absent, resets the form to the fresh initial state when the deleted id
was the one being edited, and otherwise leaves the form, the editingId
flag and the search term untouched. -/
theorem c6_delete_spec (s : AppState) (i today : String) :
    ((handleDelete i today s).entries
        = s.entries.filter (fun e => e.id != i))
    ∧ (handleDelete i today s).entries.Sublist s.entries
    ∧ (∀ e, e ∈ (handleDelete i today s).entries
        ↔ e ∈ s.entries ∧ e.id ≠ i)
    ∧ ((∀ e ∈ s.entries, e.id ≠ i) →
        (handleDelete i today s).entries = s.entries)
    ∧ (s.editingId = some i →
        (handleDelete i today s).form = makeInitialFormState today
        ∧ (handleDelete i today s).editingId = none)
    ∧ (s.editingId ≠ some i →
        (handleDelete i today s).form = s.form
        ∧ (handleDelete i today s).editingId = s.editingId)
    ∧ (handleDelete i today s).searchTerm = s.searchTerm := by
  have hent : (handleDelete i today s).entries
      = s.entries.filter (fun e => e.id != i) := by
    rw [handleDelete]
    split <;> rfl
  refine ⟨hent, ?_, ?_, ?_, ?_, ?_, ?_⟩
  · rw [hent]
    exact List.filter_sublist s.entries
  · intro e
    rw [hent]
    simp [List.mem_filter, bne_iff_ne]
  · intro hnone
    rw [hent]
    apply List.filter_eq_self.mpr
    intro e he
    exact bne_iff_ne.mpr (hnone e he)
  · intro hed
    rw [handleDelete, if_pos hed]
    exact ⟨rfl, rfl⟩
  · intro hed
    rw [handleDelete, if_neg hed]
    exact ⟨rfl, rfl⟩
  · rw [handleDelete]
    split <;> rfl

/-- Witness for C6: deleting the absent id "zz" from the freshly seeded
store leaves the store unchanged. -/
theorem c6_delete_spec_witness :
    (handleDelete "zz" "2024-11-20"
        (initialState ["a", "b"] "2024-11-20")).entries
      = (initialState ["a", "b"] "2024-11-20").entries :=
  (c6_delete_spec (initialState ["a", "b"] "2024-11-20") "zz"
    "2024-11-20").2.2.2.1 (by decide)

/-! ### C7: relay (reset to seed) -/

/-- C7, counterexample to the claim as stated: the id generator is the
unchecked Math.random token generator, modelled as oracle inputs, and
nothing in handleRelay prevents a generated id from repeating an earlier
one: in the session whose initial load generated ids "a" and "b", a
relay whose generator outputs are again "a" and "b" produces entries
whose ids collide with ids used earlier in the session. -/
theorem c7_counterexample :
    (handleRelay ["a", "b"] "2024-11-20"
        (initialState ["a", "b"] "2024-11-20")).entries.map Entry.id
      = (initialState ["a", "b"] "2024-11-20").entries.map Entry.id
    ∧ (initialState ["a", "b"] "2024-11-20").entries.map Entry.id
      = ["a", "b"] := by
  refine ⟨?_, ?_⟩ <;> decide

/-- C7 as amended: relay replaces the whole store with exactly the seed
records, with the same field values in the same order, each carrying the
next generator output as its id; it clears the search term and resets
the form with editingId none.  The replacement ids avoid the ids used
earlier in the session exactly when the generator outputs do: whenever
the two outputs lie outside any set of previously used ids, so do the
ids of every entry of the new store — the code itself performs no
collision check. -/
theorem c7_relay_spec (s : AppState) (i1 i2 today : String) :
    ((handleRelay [i1, i2] today s).entries.map Entry.toSeed = seedEntries)
    ∧ ((handleRelay [i1, i2] today s).entries.map Entry.id = [i1, i2])
    ∧ (handleRelay [i1, i2] today s).searchTerm = ""
    ∧ (handleRelay [i1, i2] today s).form = makeInitialFormState today
    ∧ (handleRelay [i1, i2] today s).editingId = none
    ∧ (∀ prior : List String, i1 ∉ prior → i2 ∉ prior →
        ∀ e ∈ (handleRelay [i1, i2] today s).entries, e.id ∉ prior) := by
  refine ⟨?_, ?_, rfl, rfl, rfl, ?_⟩
  · simp [handleRelay, instantiateSeeds, seedEntries, SeedEntry.withId,
      Entry.toSeed]
  · simp [handleRelay, instantiateSeeds, seedEntries, SeedEntry.withId]
  · intro prior h1 h2 e he
    simp only [handleRelay, instantiateSeeds, seedEntries, List.zipWith,
      List.mem_cons, List.not_mem_nil, or_false] at he
    rcases he with he | he
    · rw [he]
      exact h1
    · rw [he]
      exact h2

/-- Witness for C7: a concrete relay yields exactly the generator
outputs as the new ids. -/
theorem c7_relay_spec_witness :
    (handleRelay ["x", "y"] "2024-11-20" blankPlateState).entries.map
        Entry.id = ["x", "y"] :=
  (c7_relay_spec blankPlateState "x" "y" "2024-11-20").2.1

/-! ### C3: commit semantics of submit -/

/-- C3: any submit whose plate number does not trim to the empty string
commits.  The form resets to the fresh defaults (empty texts, today's
date, the first price option) and editingId clears.  With editingId
none, exactly the one submitted entry is prepended and every prior
entry is preserved behind it in order.  With editingId some eid, the
store keeps its length and every position keeps its entry except that
the positions whose entry carried id eid now hold the submitted entry —
an in-place replacement, not a move to the front. -/
theorem c3_submit_commits (s : AppState) (idA idB today : String)
    (hp : jsTrim s.form.plateNumber ≠ "") :
    ((handleSubmit idA idB today s).form = makeInitialFormState today
      ∧ (handleSubmit idA idB today s).editingId = none
      ∧ (handleSubmit idA idB today s).form.date = today
      ∧ (handleSubmit idA idB today s).form.summa = priceOptions.headD ""
      ∧ (handleSubmit idA idB today s).form.plateNumber = ""
      ∧ (handleSubmit idA idB today s).form.yukBilan = ""
      ∧ (handleSubmit idA idB today s).form.yuksiz = ""
      ∧ (handleSubmit idA idB today s).form.checkNumber = "")
    ∧ (s.editingId = none →
        (handleSubmit idA idB today s).entries
          = submittedEntry idA idB none s.form :: s.entries)
    ∧ (∀ eid, s.editingId = some eid →
        (handleSubmit idA idB today s).entries.length = s.entries.length
        ∧ ∀ (j : Nat) (e : Entry), s.entries[j]? = some e →
            ((e.id = eid →
              (handleSubmit idA idB today s).entries[j]?
                = some (submittedEntry idA idB (some eid) s.form))
            ∧ (e.id ≠ eid →
              (handleSubmit idA idB today s).entries[j]? = some e))) := by
  refine ⟨⟨?_, ?_, ?_, ?_, ?_, ?_, ?_, ?_⟩, fun hn => ?_, fun eid hn => ?_⟩
  · rw [handleSubmit, if_neg hp]
  · rw [handleSubmit, if_neg hp]
  · rw [handleSubmit, if_neg hp]
    rfl
  · rw [handleSubmit, if_neg hp]
    rfl
  · rw [handleSubmit, if_neg hp]
    rfl
  · rw [handleSubmit, if_neg hp]
    rfl
  · rw [handleSubmit, if_neg hp]
    rfl
  · rw [handleSubmit, if_neg hp]
    rfl
  · rw [handleSubmit, if_neg hp, hn]
  · have hent : (handleSubmit idA idB today s).entries
        = s.entries.map (fun e =>
            if e.id = eid then submittedEntry idA idB (some eid) s.form
            else e) := by
      rw [handleSubmit, if_neg hp, hn]
    constructor
    · rw [hent, List.length_map]
    · intro j e hje
      constructor
      · intro hid
        rw [hent, List.getElem?_map, hje]
        simp [hid]
      · intro hid
        rw [hent, List.getElem?_map, hje]
        simp [hid]

/-- Witness for C3: a concrete create-mode submit prepends exactly the
submitted entry in front of the seeded store. -/
theorem c3_submit_commits_witness :
    (handleSubmit "i1" "i2" "2024-11-20"
        { entries := instantiateSeeds ["a", "b"], form := blankCheckForm,
          editingId := none, searchTerm := "" }).entries
      = submittedEntry "i1" "i2" none blankCheckForm
          :: instantiateSeeds ["a", "b"] :=
  (c3_submit_commits
    { entries := instantiateSeeds ["a", "b"], form := blankCheckForm,
      editingId := none, searchTerm := "" } "i1" "i2" "2024-11-20"
    (by decide)).2.1 rfl

/-! ### C4: the derived search view -/

/-- The second seed record instantiated with id "b". -/
def demoEntryB : Entry :=
  { id := "b", plateNumber := "30B555BB", yukBilan := 52500,
    yuksiz := 14000, sofVazin := 38500, date := "2024-11-19",
    price := "40,000", checkNumber := "CHK-2024-9124" }

/-- C4: with a search string that trims to empty, the derived view is
the whole store in original order; otherwise the view is a sublist of
the store (store order preserved, store untouched) and an entry appears
in it exactly when the trimmed lowercased search string occurs as a
plain substring of the lowercased haystack joining its seven field
texts. -/
theorem c4_filtered_view (entries : List Entry) (q : String) :
    (jsTrim q = "" → filteredEntries entries q = entries)
    ∧ (jsTrim q ≠ "" →
        (filteredEntries entries q).Sublist entries
        ∧ ∀ e, e ∈ filteredEntries entries q ↔
            e ∈ entries
            ∧ occursIn (jsToLower (jsTrim q)).data
                (jsToLower (haystack e)).data) := by
  constructor
  · intro h
    rw [filteredEntries]
    have hl : jsToLower (jsTrim q) = "" := by
      rw [h]
      rfl
    rw [if_pos hl]
  · intro h
    have hl : jsToLower (jsTrim q) ≠ "" := by
      intro hc
      exact h ((jsToLower_eq_empty_iff (jsTrim q)).mp hc)
    rw [filteredEntries, if_neg hl]
    constructor
    · exact List.filter_sublist entries
    · intro e
      rw [List.mem_filter, containsSeq_iff]

/-- Witness for C4: the spec's example search "30b555bb" against the
seeded store finds the entry whose plate is 30B555BB. -/
theorem c4_filtered_view_witness :
    demoEntryB ∈ filteredEntries (instantiateSeeds ["a", "b"]) "30b555bb" :=
  (((c4_filtered_view (instantiateSeeds ["a", "b"]) "30b555bb").2
      (by decide)).2 demoEntryB).mpr
    ⟨by decide, (containsSeq_iff _ _).mp (by decide)⟩

/-! ### C5: highlight segmentation -/

/-- A consHead result is never empty. -/
theorem consHead_ne_nil (c : Char) (L : List (List Char)) : consHead c L ≠ [] := by
  cases L <;> simp [consHead]

/-- A split result is never empty. -/
theorem splitCI_ne_nil (t s : List Char) : splitCI t s ≠ [] := by
  cases s with
  | nil => simp [splitCI]
  | cons c rest =>
    rw [splitCI]
    split
    · simp
    · exact consHead_ne_nil c (splitCI t rest)

/-- Flattening commutes with consHead. -/
theorem consHead_flatten (c : Char) (L : List (List Char)) :
    (consHead c L).flatten = c :: L.flatten := by
  cases L <;> simp [consHead]

/-- The segments of a split concatenate back to the input: the split
loses no text. -/
theorem splitCI_flatten (t s : List Char) : (splitCI t s).flatten = s := by
  induction s using splitCI.induct t with
  | case1 => simp [splitCI]
  | case2 c rest h ih =>
    rw [splitCI, dif_pos h]
    simp only [List.flatten_cons, List.nil_append, ih]
    exact List.take_append_drop t.length (c :: rest)
  | case3 c rest h ih =>
    rw [splitCI, dif_neg h, consHead_flatten, ih]

/-- Taking the default head commutes with consHead. -/
theorem headD_consHead (c : Char) (L : List (List Char)) :
    (consHead c L).headD [] = c :: L.headD [] := by
  cases L <;> simp [consHead]

/-- The first segment of a split is a prefix of the input. -/
theorem splitCI_headD_append (t s : List Char) :
    ∃ u, s = (splitCI t s).headD [] ++ u := by
  induction s using splitCI.induct t with
  | case1 => exact ⟨[], by simp [splitCI]⟩
  | case2 c rest h ih =>
    rw [splitCI, dif_pos h]
    exact ⟨c :: rest, rfl⟩
  | case3 c rest h ih =>
    rw [splitCI, dif_neg h, headD_consHead]
    obtain ⟨u, hu⟩ := ih
    exact ⟨u, by rw [List.cons_append, ← hu]⟩

/-- The first segment of a split contains no case-insensitive occurrence
of the (nonempty) search term: the scanner consumed every occurrence it
met. -/
theorem splitCI_head_no_occurrence (t : List Char) (ht : t ≠ []) (s : List Char) :
    ¬ occursIn (lowerList t) (lowerList ((splitCI t s).headD [])) := by
  induction s using splitCI.induct t with
  | case1 =>
    simp only [splitCI, List.headD_cons, lowerList, List.map_nil]
    intro hocc
    exact ht (List.map_eq_nil_iff.mp ((occursIn_nil_iff _).mp hocc))
  | case2 c rest h ih =>
    rw [splitCI, dif_pos h]
    simp only [List.headD_cons, lowerList, List.map_nil]
    intro hocc
    exact ht (List.map_eq_nil_iff.mp ((occursIn_nil_iff _).mp hocc))
  | case3 c rest h ih =>
    rw [splitCI, dif_neg h, headD_consHead]
    have hne : lowerList ((c :: rest).take t.length) ≠ lowerList t :=
      fun hh => h ⟨ht, hh⟩
    obtain ⟨u0, hu0⟩ := splitCI_headD_append t rest
    generalize hg : (splitCI t rest).headD [] = h0 at hu0 ih ⊢
    intro hocc
    rw [show lowerList (c :: h0) = c.toLower :: lowerList h0 from rfl] at hocc
    rcases (occursIn_cons_iff _ _ _).mp hocc with ⟨u, hu⟩ | hocc2
    · apply hne
      have hrest : lowerList rest = lowerList h0 ++ lowerList u0 := by
        rw [hu0]
        simp [lowerList, List.map_append]
      have hfull : lowerList (c :: rest)
          = lowerList t ++ (u ++ lowerList u0) := by
        rw [show lowerList (c :: rest) = c.toLower :: lowerList rest from rfl,
          hrest, ← List.cons_append, hu, List.append_assoc]
      have hlen : (lowerList t).length = t.length := by
        rw [lowerList, List.length_map]
      calc lowerList ((c :: rest).take t.length)
          = (lowerList (c :: rest)).take t.length := by
            rw [lowerList, lowerList, List.map_take]
        _ = (lowerList t ++ (u ++ lowerList u0)).take t.length := by rw [hfull]
        _ = (lowerList t ++ (u ++ lowerList u0)).take (lowerList t).length := by
            rw [hlen]
        _ = lowerList t := List.take_left _ _
    · exact ih hocc2

/-- Every segment of a split is either exactly a case-insensitive copy
of the search term or contains no case-insensitive occurrence of it at
all: all occurrences become their own segments. -/
theorem splitCI_mem_cases (t : List Char) (ht : t ≠ []) (s : List Char) :
    ∀ seg ∈ splitCI t s,
      lowerList seg = lowerList t
      ∨ ¬ occursIn (lowerList t) (lowerList seg) := by
  induction s using splitCI.induct t with
  | case1 =>
    intro seg hseg
    rw [splitCI] at hseg
    simp only [List.mem_singleton] at hseg
    subst hseg
    right
    intro hocc
    exact ht (List.map_eq_nil_iff.mp ((occursIn_nil_iff _).mp hocc))
  | case2 c rest h ih =>
    intro seg hseg
    rw [splitCI, dif_pos h] at hseg
    rcases List.mem_cons.mp hseg with hseg2 | hseg2
    · subst hseg2
      right
      intro hocc
      exact ht (List.map_eq_nil_iff.mp ((occursIn_nil_iff _).mp hocc))
    · rcases List.mem_cons.mp hseg2 with hseg3 | hseg3
      · subst hseg3
        left
        exact h.2
      · exact ih seg hseg3
  | case3 c rest h ih =>
    intro seg hseg
    rw [splitCI, dif_neg h] at hseg
    have hhead := splitCI_head_no_occurrence t ht (c :: rest)
    rw [splitCI, dif_neg h, headD_consHead] at hhead
    cases hL : splitCI t rest with
    | nil => exact absurd hL (splitCI_ne_nil t rest)
    | cons l0 ls =>
      rw [hL, consHead] at hseg
      rw [hL] at hhead
      rcases List.mem_cons.mp hseg with hseg2 | hseg2
      · subst hseg2
        right
        simpa using hhead
      · exact ih seg (by rw [hL]; exact List.mem_cons_of_mem l0 hseg2)

/-- Two strings with the same character list are equal. -/
theorem string_eq_of_data (a b : String) (h : a.data = b.data) : a = b := by
  cases a with
  | mk d1 =>
    cases b with
    | mk d2 =>
      simp only [String.data] at h
      subst h
      rfl

/-- Unfolding the character list of a string fold over append. -/
theorem foldl_append_data (l : List String) (acc : String) :
    (l.foldl (fun a b => a ++ b) acc).data
      = acc.data ++ (l.map String.data).flatten := by
  induction l generalizing acc with
  | nil => simp
  | cons s l ih =>
    simp [List.foldl_cons, ih, String.data_append, List.append_assoc]

/-- The character list of a joined string list is the flattened list of
their character lists. -/
theorem stringJoin_data (l : List String) :
    (String.join l).data = (l.map String.data).flatten := by
  have h := foldl_append_data l ""
  simpa [String.join] using h

/-- C5: for a non-empty already-lowercased search term, highlightMatch
splits the field text into segments whose concatenation restores the
text exactly; a segment is marked exactly when its lowercased form
equals the search term; and every unmarked segment contains no
case-insensitive occurrence of the term at all — hence every occurrence
in the field text lies in a marked segment, not only the first. -/
theorem c5_highlight_segments (term value : String) (h1 : term ≠ "")
    (h2 : lowerList term.data = term.data) :
    String.join ((highlightMatch term value).map Prod.fst) = value
    ∧ (∀ p ∈ highlightMatch term value,
        p.2 = true ↔ lowerList p.1.data = term.data)
    ∧ (∀ p ∈ highlightMatch term value,
        p.2 = false → ¬ occursIn term.data (lowerList p.1.data)) := by
  have ht : term.data ≠ [] := (string_ne_empty_iff_data term).mp h1
  have hM : highlightMatch term value
      = (splitCI term.data value.data).map
          (fun seg => (⟨seg⟩, lowerList seg == term.data)) := by
    rw [highlightMatch, if_neg h1]
  refine ⟨?_, ?_, ?_⟩
  · apply string_eq_of_data
    rw [stringJoin_data, hM]
    simp only [List.map_map]
    rw [show (String.data ∘ Prod.fst
        ∘ fun seg => ((⟨seg⟩ : String), lowerList seg == term.data))
        = id from rfl]
    rw [List.map_id, splitCI_flatten]
  · intro p hp
    rw [hM] at hp
    rcases List.mem_map.mp hp with ⟨seg, hseg, rfl⟩
    simp [beq_iff_eq]
  · intro p hp hfalse
    rw [hM] at hp
    rcases List.mem_map.mp hp with ⟨seg, hseg, rfl⟩
    have hne : lowerList seg ≠ term.data := by simpa using hfalse
    rcases splitCI_mem_cases term.data ht value.data seg hseg with hcase | hcase
    · rw [h2] at hcase
      exact absurd hcase hne
    · rw [h2] at hcase
      exact hcase

/-- Witness for C5 at the spec's example: highlighting "550" inside
"38,550" produces segments that concatenate back to "38,550". -/
theorem c5_highlight_segments_witness :
    String.join ((highlightMatch "550" "38,550").map Prod.fst) = "38,550" :=
  (c5_highlight_segments "550" "38,550" (by decide) (by decide)).1

/-! ### C10: the editing id always points at a stored entry -/

/-- C10: in every reachable state, a non-null editingId is the id of
some entry currently in the store, so the update branch of submit always
finds its target. -/
theorem c10_editing_invariant (s : AppState) (hs : Reachable s) :
    ∀ eid, s.editingId = some eid → ∃ e, e ∈ s.entries ∧ e.id = eid := by
  induction hs with
  | init ids today =>
    intro eid h
    simp [initialState] at h
  | input f v s0 hr ih =>
    intro eid h
    exact ih eid h
  | search q s0 hr ih =>
    intro eid h
    exact ih eid h
  | submit idA idB today s0 hr ih =>
    intro eid h
    by_cases hp : jsTrim s0.form.plateNumber = ""
    · rw [handleSubmit, if_pos hp] at h ⊢
      exact ih eid h
    · rw [handleSubmit, if_neg hp] at h
      simp at h
  | edit i s0 hr ih =>
    intro eid h
    cases hf : s0.entries.find? (fun e => e.id == i) with
    | none =>
      simp only [handleEdit, hf] at h ⊢
      exact ih eid h
    | some entry =>
      simp only [handleEdit, hf, Option.some.injEq] at h ⊢
      refine ⟨entry, List.mem_of_find?_eq_some hf, ?_⟩
      have hid := List.find?_some hf
      simp only [beq_iff_eq] at hid
      rw [hid, h]
  | delete i today s0 hr ih =>
    intro eid h
    by_cases hcase : s0.editingId = some i
    · rw [handleDelete, if_pos hcase] at h
      simp [resetFormOn] at h
    · rw [handleDelete, if_neg hcase] at h
      obtain ⟨e, he, heid⟩ := ih eid h
      refine ⟨e, ?_, heid⟩
      rw [handleDelete, if_neg hcase]
      apply List.mem_filter.mpr
      refine ⟨he, ?_⟩
      have hne : eid ≠ i := fun hh => hcase (by rw [h, hh])
      exact bne_iff_ne.mpr (heid ▸ hne)
  | clear today s0 hr ih =>
    intro eid h
    simp [resetFormOn] at h
  | relay ids today s0 hr ih =>
    intro eid h
    simp [handleRelay] at h

/-- Witness for C10: after selecting edit on the seeded entry with id
"b", the invariant applies and the store is in particular non-empty. -/
theorem c10_editing_invariant_witness :
    (handleEdit "b" (initialState ["a", "b"] "2024-11-20")).entries ≠ [] := by
  obtain ⟨e, he, -⟩ := c10_editing_invariant
    (handleEdit "b" (initialState ["a", "b"] "2024-11-20"))
    (Reachable.edit "b" (initialState ["a", "b"] "2024-11-20")
      (Reachable.init ["a", "b"] "2024-11-20"))
    "b" (by decide)
  intro hnil
  rw [hnil] at he
  simp at he
